import Mathlib

/-!
# Shallow embedding of `singapore_unibot`'s data-access layer

This file embeds the schedule-cache CRUD module
(`src/app/db/crud/schedule.py`) of the repository: the weekly schedule
cache (`get_cached_schedule`, `save_schedule_to_cache`), the user
directory lookup (`get_user_group_id`), and the daily lesson aggregator
(`get_all_group_schedules_today`).  The database tables are modelled as
in-memory lists of rows; each Python accessor becomes a pure Lean
function over that state.  `json.loads` is external library code and is
modelled as an abstract parameter `parse : String → Option (List Lesson)`
of the aggregator.
-/

namespace UniBot

/-- A calendar date (proleptic Gregorian), as Python's `datetime.date`. -/
structure DateD where
  year : Nat
  month : Nat
  day : Nat
deriving DecidableEq, Repr

/-- Gregorian leap-year test, as Python's `calendar`/`datetime` use. -/
def isLeap (y : Nat) : Bool :=
  y % 4 == 0 && (y % 100 != 0 || y % 400 == 0)

/-- Number of days in a month of a given year. -/
def daysInMonth (y m : Nat) : Nat :=
  if m == 2 then (if isLeap y then 29 else 28)
  else if m == 4 || m == 6 || m == 9 || m == 11 then 30
  else 31

/-- The next calendar day: models Python's `d + timedelta(days=1)`. -/
def addDay (d : DateD) : DateD :=
  if d.day < daysInMonth d.year d.month then ⟨d.year, d.month, d.day + 1⟩
  else if d.month < 12 then ⟨d.year, d.month + 1, 1⟩
  else ⟨d.year + 1, 1, 1⟩

/-- Numeric value of a decimal digit character. -/
def digitVal (c : Char) : Nat := c.toNat - 48

/-- Models `datetime.fromisoformat(s).date()` on a string of at most 10
characters: succeeds exactly on a well-formed `YYYY-MM-DD` list of
characters whose fields are in range, and fails (raises, in Python)
otherwise. -/
def fromIso (cs : List Char) : Option DateD :=
  match cs with
  | [y1, y2, y3, y4, s1, m1, m2, s2, d1, d2] =>
    if y1.isDigit && y2.isDigit && y3.isDigit && y4.isDigit &&
       s1 == '-' && m1.isDigit && m2.isDigit &&
       s2 == '-' && d1.isDigit && d2.isDigit then
      let y := 1000 * digitVal y1 + 100 * digitVal y2 + 10 * digitVal y3 + digitVal y4
      let m := 10 * digitVal m1 + digitVal m2
      let d := 10 * digitVal d1 + digitVal d2
      if 1 ≤ y && 1 ≤ m && m ≤ 12 && 1 ≤ d && d ≤ daysInMonth y m then
        some ⟨y, m, d⟩
      else none
    else none
  | _ => none

/-- Days before month `m` in year `y`. -/
def daysBeforeMonth (y m : Nat) : Nat :=
  (List.range m).foldl (fun acc k => if 1 ≤ k then acc + daysInMonth y k else acc) 0

/-- Rata-die day number of a date (day 1 = 0001-01-01, a Monday). -/
def rataDie (d : DateD) : Nat :=
  365 * (d.year - 1) + (d.year - 1) / 4 - (d.year - 1) / 100 + (d.year - 1) / 400
    + daysBeforeMonth d.year d.month + d.day

/-- Modelled from the spec: `app.utils.schedule.get_week_start` is not
under `src/`.  The spec's glossary defines the week-start as the
canonical date of the Monday of the week containing the given date, used
only as a cache partition key; we model it as the rata-die number of
that Monday. -/
def get_week_start (d : DateD) : Nat :=
  let rd := rataDie d
  rd - (rd - 1) % 7

/-- Modelled from the spec: one row of the `ScheduleCache` table of
`app.db.models` (not under `src/`), with the fields §3 of the spec
lists: `{id, group_id, week_start, data, updated_at}`.  Timestamps are
abstract `Nat` instants. -/
structure ScheduleCache where
  id : Nat
  group_id : String
  week_start : Nat
  data : String
  updated_at : Nat
deriving DecidableEq, Repr

/-- The `ScheduleCache` table: its rows in table order, plus the next
auto-increment primary key. -/
structure Store where
  rows : List ScheduleCache
  nextId : Nat
deriving DecidableEq, Repr

/-- The `WHERE group_id == ... AND week_start == ...` filter of both
cache queries. -/
def keyMatch (g : String) (ws : Nat) (r : ScheduleCache) : Bool :=
  r.group_id == g && r.week_start == ws

/-- Embeds `get_cached_schedule(group_id, target_date)`: derives the
week start, selects the first row matching `(group_id, week_start)`,
returns `None` when there is none and otherwise returns `cache` — the
whole row object (the Python function's final statement is
`return cache`, not `return cache.data`). -/
def get_cached_schedule (group_id : String) (target_date : DateD) (s : Store) :
    Option ScheduleCache :=
  let week_start := get_week_start target_date
  match s.rows.find? (keyMatch group_id week_start) with
  | none => none
  | some cache => some cache

/-- Embeds `save_schedule_to_cache(group_id, target_date, data)`:
derives the week start, selects the first existing row for the key; if
one exists, issues `UPDATE ... WHERE id == existing.id` setting `data`
and `updated_at = now`; otherwise inserts a fresh row.  `now` models
`datetime.utcnow()`. -/
def save_schedule_to_cache (group_id : String) (target_date : DateD)
    (data : String) (now : Nat) (s : Store) : Store :=
  let week_start := get_week_start target_date
  match s.rows.find? (keyMatch group_id week_start) with
  | some existing =>
    ⟨s.rows.map (fun r =>
        if r.id == existing.id then { r with data := data, updated_at := now } else r),
      s.nextId⟩
  | none =>
    ⟨s.rows ++ [⟨s.nextId, group_id, week_start, data, now⟩], s.nextId + 1⟩

/-- The spec's §3 invariant: at most one row per `(group_id,
week_start)` pair. -/
def Inv (s : Store) : Prop :=
  s.rows.Pairwise
    (fun a b => ¬(a.group_id = b.group_id ∧ a.week_start = b.week_start))

instance (s : Store) : Decidable (Inv s) := by
  unfold Inv
  exact List.instDecidablePairwise s.rows

/-- Number of rows of the table holding the given key. -/
def countKey (s : Store) (g : String) (ws : Nat) : Nat :=
  (s.rows.filter (keyMatch g ws)).length

/-- Modelled from the spec: one row of the `User` table of
`app.db.models` (not under `src/`), fields per §3: `{id, telegram_id,
group_id}`; `group_id` may be NULL (absence is a legitimate outcome per
§4.2). -/
structure User where
  id : Nat
  telegram_id : Int
  group_id : Option Int
deriving DecidableEq, Repr

/-- Embeds `get_user_group_id(telegram_id)`: `SELECT User.group_id WHERE
telegram_id == ...` then `.scalar()` (first row's value, or `None` when
there is no row), then `if group_id is None: return None` and otherwise
the value. -/
def get_user_group_id (users : List User) (telegram_id : Int) : Option Int :=
  match users.find? (fun u => u.telegram_id == telegram_id) with
  | none => none
  | some u =>
    match u.group_id with
    | none => none
    | some g => some g

/-- One lesson record of a cached JSON payload: an object with an
optional `scheduleDate` string field (absent models a dict without the
key, so `lesson.get("scheduleDate", "")` yields `""`), plus the rest of
the object, abstracted as a string. -/
structure Lesson where
  scheduleDate : Option String
  body : String
deriving DecidableEq, Repr

/-- Models `datetime.fromisoformat(lesson.get("scheduleDate", "")[:10]).date()`:
take the first 10 characters of the lesson's date field (the empty
string when the field is absent) and parse them as an ISO calendar date;
`none` models the raised exception. -/
def lessonDate (l : Lesson) : Option DateD :=
  fromIso (((l.scheduleDate.getD "").toList).take 10)

/-- The inner `for lesson in lessons` loop of
`get_all_group_schedules_today`, restricted to one row: collect, in
payload order, the lessons whose parsed date plus one day equals the
target date.  A lesson whose date field fails to parse raises, which the
per-row `except` catches: the loop stops there, keeping what was already
appended and dropping the rest of the row. -/
def collectMatches (target : DateD) : List Lesson → List Lesson
  | [] => []
  | l :: rest =>
    match lessonDate l with
    | none => []
    | some d =>
      if addDay d = target then l :: collectMatches target rest
      else collectMatches target rest

/-- The lessons one cache row contributes to the aggregation:
`json.loads(row.data)` (the abstract `parse`; `none` models a raised
`JSONDecodeError`, caught per row) followed by the inner loop. -/
def rowLessons (parse : String → Option (List Lesson)) (row : ScheduleCache)
    (target : DateD) : List Lesson :=
  match parse row.data with
  | none => []
  | some lessons => collectMatches target lessons

/-- Append `ls` to the bucket of key `g` of an insertion-ordered
association list, creating the bucket at the end when absent — the
behaviour of `defaultdict(list)` under `grouped[g].append(...)`. -/
def addToAssoc : List (String × List Lesson) → String → List Lesson →
    List (String × List Lesson)
  | [], g, ls => [(g, ls)]
  | (g', ls') :: rest, g, ls =>
    if g' == g then (g', ls' ++ ls) :: rest
    else (g', ls') :: addToAssoc rest g ls

/-- One row's effect on the `grouped` dict: `grouped[row.group_id]` is
only touched inside the `if lesson_date == target_date` branch, so a row
contributing no lessons creates no key. -/
def appendGroup (acc : List (String × List Lesson)) (g : String)
    (ls : List Lesson) : List (String × List Lesson) :=
  if ls.isEmpty then acc else addToAssoc acc g ls

/-- The `for row in rows` loop of `get_all_group_schedules_today`,
threading the `grouped` dict. -/
def aggAux (parse : String → Option (List Lesson)) (target : DateD) :
    List ScheduleCache → List (String × List Lesson) →
    List (String × List Lesson)
  | [], acc => acc
  | row :: rest, acc =>
    aggAux parse target rest (appendGroup acc row.group_id (rowLessons parse row target))

/-- Embeds `get_all_group_schedules_today(target_date)`: scan every row
of the `ScheduleCache` table (in table order) and build the per-group
mapping of matching lessons. -/
def get_all_group_schedules_today (parse : String → Option (List Lesson))
    (rows : List ScheduleCache) (target : DateD) :
    List (String × List Lesson) :=
  aggAux parse target rows []

/-- Dictionary lookup in the aggregation result. -/
def lookupGroup : List (String × List Lesson) → String → Option (List Lesson)
  | [], _ => none
  | (g', ls) :: rest, g => if g' == g then some ls else lookupGroup rest g

/-- The matching lessons group `g` picks up from a list of cache rows,
in row-then-lesson encounter order. -/
def groupContrib (parse : String → Option (List Lesson))
    (rows : List ScheduleCache) (target : DateD) (g : String) : List Lesson :=
  (rows.filter (fun r => r.group_id == g)).flatMap (fun r => rowLessons parse r target)

/-- Whether one lesson passes the aggregator's date test for the target
date (its parsed date plus one day equals the target). -/
def matchesTarget (target : DateD) (l : Lesson) : Bool :=
  match lessonDate l with
  | none => false
  | some d => if addDay d = target then true else false

/-- `none` for the empty list, `some` otherwise: the shape of a
`defaultdict` bucket that is created only when something is appended. -/
def optOfList (ls : List Lesson) : Option (List Lesson) :=
  if ls.isEmpty then none else some ls

/-- Extending a (possibly absent) bucket by a batch of lessons. -/
def combineOpt (o : Option (List Lesson)) (ls : List Lesson) :
    Option (List Lesson) :=
  match o with
  | some xs => some (xs ++ ls)
  | none => optOfList ls

/-- The keys of the aggregation dictionary, in insertion order. -/
def keysOf (acc : List (String × List Lesson)) : List String :=
  acc.map Prod.fst

/-! ## Concrete demonstration data

Used by the closed evaluation theorems (counterexamples and witnesses):
a target date of 2024-03-15 and a handful of lessons and cache rows. -/

/-- The demonstration target date 2024-03-15. -/
def demoTarget : DateD := ⟨2024, 3, 15⟩

/-- A well-formed lesson dated 2024-03-14T19:00:00, hence matching the
demonstration target after the +1 day correction. -/
def goodLesson : Lesson := ⟨some "2024-03-14T19:00:00", "good"⟩

/-- A lesson whose `scheduleDate` key is missing: `lesson.get` yields
the empty string and `fromisoformat` raises. -/
def badLesson : Lesson := ⟨none, "bad"⟩

/-- A well-formed matching lesson that sits after `badLesson` in its
row's payload. -/
def lateLesson : Lesson := ⟨some "2024-03-14T09:00:00", "late"⟩

/-- A well-formed matching lesson in a healthy row. -/
def okLesson : Lesson := ⟨some "2024-03-14T08:00:00", "ok"⟩

/-- A concrete stand-in for `json.loads` on the demonstration payloads:
the payload of the bad row decodes to a good lesson followed by a broken
one, that of the ok rows decodes to a single lesson, everything else
fails to decode. -/
def demoParse (s : String) : Option (List Lesson) :=
  if s = "badrow-payload" then some [goodLesson, badLesson, lateLesson]
  else if s = "okrow-payload" then some [okLesson]
  else if s = "exrow-payload" then some [goodLesson]
  else none

/-- A cache row whose payload holds a broken lesson between two good
ones. -/
def demoBadRow : ScheduleCache := ⟨1, "g1", 738950, "badrow-payload", 10⟩

/-- A healthy cache row of another group. -/
def demoOkRow : ScheduleCache := ⟨2, "g2", 738950, "okrow-payload", 11⟩

/-- A healthy cache row holding exactly the spec's example lesson. -/
def exRow : ScheduleCache := ⟨3, "g3", 738950, "exrow-payload", 12⟩

/-- A one-row store for the cache-write demonstrations. -/
def demoStore1 : Store :=
  ⟨[⟨7, "g1", get_week_start ⟨2024, 3, 15⟩, "cached-payload", 42⟩], 8⟩

/-! ## Lemmas about the cache store -/

/-- Unfolding the key filter into propositional equalities. -/
lemma keyMatch_iff {g : String} {ws : Nat} {r : ScheduleCache} :
    keyMatch g ws r = true ↔ r.group_id = g ∧ r.week_start = ws := by
  simp [keyMatch]

/-- Under the uniqueness invariant, the rows matching a key that some
member row carries are exactly that row. -/
lemma filter_key_of_inv {s : Store} {g : String} {ws : Nat} {r : ScheduleCache}
    (hInv : Inv s) (hr : r ∈ s.rows) (hm : keyMatch g ws r = true) :
    s.rows.filter (keyMatch g ws) = [r] := by
  rcases s with ⟨rows, nextId⟩
  simp only [Inv] at hInv
  simp only at hr ⊢
  induction rows with
  | nil => cases hr
  | cons a l ih =>
    rcases List.pairwise_cons.mp hInv with ⟨ha, hl⟩
    rcases List.mem_cons.mp hr with rfl | hr'
    · have hnil : l.filter (keyMatch g ws) = [] := by
        refine List.filter_eq_nil_iff.mpr ?_
        intro b hb hkb
        exact ha b hb ⟨(keyMatch_iff.mp hm).1.trans (keyMatch_iff.mp hkb).1.symm,
          (keyMatch_iff.mp hm).2.trans (keyMatch_iff.mp hkb).2.symm⟩
      simp [List.filter_cons, hm, hnil]
    · have hka : keyMatch g ws a = false := by
        by_contra hka
        have hka' : keyMatch g ws a = true := by
          cases hka'' : keyMatch g ws a
          · exact absurd hka'' hka
          · rfl
        exact ha r hr' ⟨(keyMatch_iff.mp hka').1.trans (keyMatch_iff.mp hm).1.symm,
          (keyMatch_iff.mp hka').2.trans (keyMatch_iff.mp hm).2.symm⟩
      simp [List.filter_cons, hka, ih hl hr']

/-- Under the invariant, two member rows carrying the same key are the
same row. -/
lemma key_unique_of_inv {s : Store} {g : String} {ws : Nat}
    {r r' : ScheduleCache} (hInv : Inv s) (hr : r ∈ s.rows) (hr' : r' ∈ s.rows)
    (hm : keyMatch g ws r = true) (hm' : keyMatch g ws r' = true) : r = r' := by
  have h1 := filter_key_of_inv hInv hr hm
  have h2 : r' ∈ s.rows.filter (keyMatch g ws) := List.mem_filter.mpr ⟨hr', hm'⟩
  rw [h1] at h2
  exact (List.mem_singleton.mp h2).symm

/-- The in-place update of a row's payload and timestamp leaves its key
fields and identifier unchanged. -/
lemma update_preserves_key (eid : Nat) (data : String) (now : Nat)
    (r : ScheduleCache) :
    ((if r.id == eid then { r with data := data, updated_at := now } else r).group_id
        = r.group_id)
    ∧ ((if r.id == eid then { r with data := data, updated_at := now } else r).week_start
        = r.week_start)
    ∧ ((if r.id == eid then { r with data := data, updated_at := now } else r).id
        = r.id) := by
  by_cases h : r.id == eid <;> simp [h]

/-- When a row for the key exists, `save_schedule_to_cache` issues the
`UPDATE ... WHERE id == existing.id`. -/
lemma save_eq_update {g : String} {t : DateD} {data : String} {now : Nat}
    {s : Store} {existing : ScheduleCache}
    (hfind : s.rows.find? (keyMatch g (get_week_start t)) = some existing) :
    save_schedule_to_cache g t data now s =
      ⟨s.rows.map (fun r =>
          if r.id == existing.id then { r with data := data, updated_at := now } else r),
        s.nextId⟩ := by
  simp [save_schedule_to_cache, hfind]

/-- When no row for the key exists, `save_schedule_to_cache` inserts a
fresh row at the end of the table. -/
lemma save_eq_insert {g : String} {t : DateD} {data : String} {now : Nat}
    {s : Store}
    (hfind : s.rows.find? (keyMatch g (get_week_start t)) = none) :
    save_schedule_to_cache g t data now s =
      ⟨s.rows ++ [⟨s.nextId, g, get_week_start t, data, now⟩], s.nextId + 1⟩ := by
  simp [save_schedule_to_cache, hfind]

/-- The payload/timestamp update commutes with the key filter. -/
lemma keyMatch_update (g : String) (ws : Nat) (eid : Nat) (data : String)
    (now : Nat) (r : ScheduleCache) :
    keyMatch g ws (if r.id == eid then { r with data := data, updated_at := now } else r)
      = keyMatch g ws r := by
  by_cases h : r.id == eid <;> simp [keyMatch, h]

/-! ## Claim theorems about the cache store -/

/-- C3: a sequentially executed `save_schedule_to_cache` preserves the
at-most-one-row-per-`(group_id, week_start)` invariant; starting from a
store satisfying it, a put for a key that is already present replaces
the row rather than adding one (the row count is unchanged), and in
every case exactly one row for the written key survives. -/
theorem save_preserves_unique_key_invariant (g : String) (t : DateD)
    (data : String) (now : Nat) (s : Store) (hInv : Inv s) :
    Inv (save_schedule_to_cache g t data now s)
    ∧ countKey (save_schedule_to_cache g t data now s) g (get_week_start t) = 1
    ∧ ((∃ r ∈ s.rows, keyMatch g (get_week_start t) r = true) →
        (save_schedule_to_cache g t data now s).rows.length = s.rows.length) := by
  cases hfind : s.rows.find? (keyMatch g (get_week_start t)) with
  | some existing =>
    have hmem : existing ∈ s.rows := List.mem_of_find?_eq_some hfind
    have hkey : keyMatch g (get_week_start t) existing = true := List.find?_some hfind
    rw [save_eq_update hfind]
    refine ⟨?_, ?_, fun _ => by simp⟩
    · unfold Inv
      simp only
      rw [List.pairwise_map]
      refine hInv.imp ?_
      intro a b hab hcontra
      rcases update_preserves_key existing.id data now a with ⟨hag, haw, _⟩
      rcases update_preserves_key existing.id data now b with ⟨hbg, hbw, _⟩
      exact hab ⟨hag ▸ hbg ▸ hcontra.1, haw ▸ hbw ▸ hcontra.2⟩
    · unfold countKey
      simp only
      rw [List.filter_map]
      have hcomp : (keyMatch g (get_week_start t)) ∘
          (fun r => if r.id == existing.id then { r with data := data, updated_at := now } else r)
          = keyMatch g (get_week_start t) := by
        funext r
        exact keyMatch_update g (get_week_start t) existing.id data now r
      rw [hcomp, filter_key_of_inv hInv hmem hkey]
      simp
  | none =>
    have hnone : ∀ r ∈ s.rows, ¬keyMatch g (get_week_start t) r = true :=
      List.find?_eq_none.mp hfind
    rw [save_eq_insert hfind]
    refine ⟨?_, ?_, ?_⟩
    · unfold Inv
      simp only
      rw [List.pairwise_append]
      refine ⟨hInv, List.pairwise_singleton _ _, ?_⟩
      intro a ha b hb hcontra
      have hb' : b = ⟨s.nextId, g, get_week_start t, data, now⟩ := List.mem_singleton.mp hb
      refine hnone a ha (keyMatch_iff.mpr ?_)
      rw [hb'] at hcontra
      exact hcontra
    · unfold countKey
      simp only
      rw [List.filter_append, List.filter_eq_nil_iff.mpr hnone]
      simp [keyMatch]
    · rintro ⟨r, hr, hkr⟩
      exact absurd hkr (hnone r hr)

/-- Witness for C3 at a concrete one-row store: the hypothesis (the
invariant) holds and a put for the already-cached key keeps one row. -/
theorem save_preserves_unique_key_invariant_witness :
    Inv demoStore1
    ∧ (Inv (save_schedule_to_cache "g1" ⟨2024, 3, 15⟩ "new-payload" 50 demoStore1)
      ∧ countKey (save_schedule_to_cache "g1" ⟨2024, 3, 15⟩ "new-payload" 50 demoStore1)
          "g1" (get_week_start ⟨2024, 3, 15⟩) = 1
      ∧ ((∃ r ∈ demoStore1.rows, keyMatch "g1" (get_week_start ⟨2024, 3, 15⟩) r = true) →
          (save_schedule_to_cache "g1" ⟨2024, 3, 15⟩ "new-payload" 50 demoStore1).rows.length
            = demoStore1.rows.length)) :=
  ⟨by decide,
    save_preserves_unique_key_invariant "g1" ⟨2024, 3, 15⟩ "new-payload" 50 demoStore1
      (by decide)⟩

/-- C4: under the table invariant, a `save_schedule_to_cache` for a key
held by member row `r` rewrites the table to a map that changes exactly
the row with `r`'s identifier — replacing its `data`, setting its
`updated_at` to the current instant, and keeping `id`, `group_id` and
`week_start` — and leaves every other row untouched; when no row holds
the key, it appends one fresh row `⟨nextId, group_id, week_start, data,
now⟩` and touches nothing else. -/
theorem save_frame_effect (g : String) (t : DateD) (data : String) (now : Nat)
    (s : Store) (hInv : Inv s) :
    (∀ r ∈ s.rows, keyMatch g (get_week_start t) r = true →
      (save_schedule_to_cache g t data now s).rows
        = s.rows.map (fun r' =>
            if r'.id == r.id then { r' with data := data, updated_at := now } else r'))
    ∧ ((∀ r ∈ s.rows, keyMatch g (get_week_start t) r = false) →
      (save_schedule_to_cache g t data now s).rows
        = s.rows ++ [⟨s.nextId, g, get_week_start t, data, now⟩]) := by
  constructor
  · intro r hr hkr
    cases hfind : s.rows.find? (keyMatch g (get_week_start t)) with
    | none => exact absurd hkr (List.find?_eq_none.mp hfind r hr)
    | some existing =>
      have hmem : existing ∈ s.rows := List.mem_of_find?_eq_some hfind
      have hkey : keyMatch g (get_week_start t) existing = true := List.find?_some hfind
      have heq : r = existing := key_unique_of_inv hInv hr hmem hkr hkey
      rw [save_eq_update hfind, heq]
  · intro hall
    have hfind : s.rows.find? (keyMatch g (get_week_start t)) = none := by
      refine List.find?_eq_none.mpr ?_
      intro r hr
      simp [hall r hr]
    rw [save_eq_insert hfind]

/-- Witness for C4 at the concrete one-row store: the invariant holds,
the stored row carries the written key, and the update rewrites exactly
that row. -/
theorem save_frame_effect_witness :
    (save_schedule_to_cache "g1" ⟨2024, 3, 15⟩ "new-payload" 50 demoStore1).rows
      = demoStore1.rows.map (fun r' =>
          if r'.id == 7 then { r' with data := "new-payload", updated_at := 50 } else r') :=
  (save_frame_effect "g1" ⟨2024, 3, 15⟩ "new-payload" 50 demoStore1 (by decide)).1
    ⟨7, "g1", get_week_start ⟨2024, 3, 15⟩, "cached-payload", 42⟩ (by decide) (by decide)

/-- C1: evaluating `get_cached_schedule` on a store holding a row for
the requested `(group_id, week_start)` key.  The function returns the
whole `ScheduleCache` row object (its final statement is
`return cache`), not the row's `data` payload string, although its own
annotation declares `-> Optional[str]`; the row's `data` field does hold
the cached payload. -/
theorem get_cached_schedule_returns_row_object :
    get_cached_schedule "g1" ⟨2024, 3, 15⟩ demoStore1
      = some ⟨7, "g1", get_week_start ⟨2024, 3, 15⟩, "cached-payload", 42⟩
    ∧ (⟨7, "g1", get_week_start ⟨2024, 3, 15⟩, "cached-payload", 42⟩ :
        ScheduleCache).data = "cached-payload"
    ∧ get_cached_schedule "g1" ⟨2024, 3, 22⟩ demoStore1 = none := by
  constructor
  · decide
  · constructor
    · rfl
    · decide

/-- C2: evaluating the put-then-get round trip from the empty store.
`get_cached_schedule` yields the full freshly inserted row object —
whose `data` field is the just-written payload — rather than the payload
string the annotation `-> Optional[str]` promises. -/
theorem save_then_get_returns_row_object :
    get_cached_schedule "g9" ⟨2024, 3, 15⟩
        (save_schedule_to_cache "g9" ⟨2024, 3, 15⟩ "fresh-payload" 100 ⟨[], 0⟩)
      = some ⟨0, "g9", get_week_start ⟨2024, 3, 15⟩, "fresh-payload", 100⟩
    ∧ (⟨0, "g9", get_week_start ⟨2024, 3, 15⟩, "fresh-payload", 100⟩ :
        ScheduleCache).data = "fresh-payload" := by
  constructor
  · decide
  · rfl

/-! ## Claim theorems about the user directory lookup -/

/-- C7: when no `User` row carries the requested telegram id, the lookup
returns `none`; being a total function of the table state it cannot fail
in any other way. -/
theorem get_user_group_id_absent_for_unknown (users : List User)
    (telegram_id : Int) (h : ∀ u ∈ users, u.telegram_id ≠ telegram_id) :
    get_user_group_id users telegram_id = none := by
  unfold get_user_group_id
  have hfind : users.find? (fun u => u.telegram_id == telegram_id) = none := by
    refine List.find?_eq_none.mpr ?_
    intro u hu
    simp [h u hu]
  rw [hfind]

/-- Witness for C7: a directory holding one unrelated user. -/
theorem get_user_group_id_absent_for_unknown_witness :
    get_user_group_id [⟨1, 5, some 9⟩] 6 = none :=
  get_user_group_id_absent_for_unknown [⟨1, 5, some 9⟩] 6 (by decide)

/-- C9: the lookup collapses two distinct situations into the same
`none` — a directory with no row for the telegram id, and a directory
whose first row for that id has a NULL `group_id` — so the caller cannot
tell an unknown user from a known user without a group. -/
theorem unknown_user_and_null_group_indistinguishable
    (users1 users2 : List User) (telegram_id : Int) (u : User)
    (h1 : ∀ x ∈ users1, x.telegram_id ≠ telegram_id)
    (h2 : users2.find? (fun x => x.telegram_id == telegram_id) = some u)
    (h3 : u.group_id = none) :
    get_user_group_id users1 telegram_id = none
    ∧ get_user_group_id users2 telegram_id = none
    ∧ get_user_group_id users1 telegram_id = get_user_group_id users2 telegram_id := by
  have ha : get_user_group_id users1 telegram_id = none := by
    unfold get_user_group_id
    have hfind : users1.find? (fun x => x.telegram_id == telegram_id) = none := by
      refine List.find?_eq_none.mpr ?_
      intro x hx
      simp [h1 x hx]
    rw [hfind]
  have hb : get_user_group_id users2 telegram_id = none := by
    unfold get_user_group_id
    rw [h2]
    simp [h3]
  exact ⟨ha, hb, ha.trans hb.symm⟩

/-- Witness for C9: the empty directory versus a directory whose single
matching row has a NULL group. -/
theorem unknown_user_and_null_group_indistinguishable_witness :
    get_user_group_id [] 5 = none
    ∧ get_user_group_id [⟨1, 5, none⟩] 5 = none
    ∧ get_user_group_id [] 5 = get_user_group_id [⟨1, 5, none⟩] 5 :=
  unknown_user_and_null_group_indistinguishable [] [⟨1, 5, none⟩] 5 ⟨1, 5, none⟩
    (by decide) (by decide) rfl

/-! ## Lemmas about the daily lesson aggregator -/

/-- Extending a bucket by nothing changes nothing. -/
lemma combineOpt_nil (o : Option (List Lesson)) : combineOpt o [] = o := by
  cases o <;> simp [combineOpt, optOfList]

/-- Two successive bucket extensions amount to one. -/
lemma combineOpt_append (o : Option (List Lesson)) (a b : List Lesson) :
    combineOpt (combineOpt o a) b = combineOpt o (a ++ b) := by
  cases o with
  | some xs => simp [combineOpt]
  | none =>
    cases a with
    | nil => simp [combineOpt, optOfList]
    | cons x xs => simp [combineOpt, optOfList]

/-- Appending lessons under key `g` extends exactly the `g` bucket. -/
lemma lookupGroup_addToAssoc_self (acc : List (String × List Lesson))
    (g : String) (ls : List Lesson) (hne : ls ≠ []) :
    lookupGroup (addToAssoc acc g ls) g = combineOpt (lookupGroup acc g) (ls) := by
  induction acc with
  | nil => simp [addToAssoc, lookupGroup, combineOpt, optOfList, hne]
  | cons p rest ih =>
    rcases p with ⟨g', ls'⟩
    by_cases h : g' == g
    · simp [addToAssoc, lookupGroup, h, combineOpt]
    · simp [addToAssoc, lookupGroup, h, ih]

/-- Appending lessons under one key leaves every other bucket alone. -/
lemma lookupGroup_addToAssoc_ne (acc : List (String × List Lesson))
    (g g₀ : String) (ls : List Lesson) (h : g ≠ g₀) :
    lookupGroup (addToAssoc acc g ls) g₀ = lookupGroup acc g₀ := by
  induction acc with
  | nil =>
    simp [addToAssoc, lookupGroup]
    intro hcontra
    exact absurd hcontra h
  | cons p rest ih =>
    rcases p with ⟨g', ls'⟩
    by_cases hg : g' == g
    · have hg' : g' = g := by simpa using hg
      have hne : (g' == g₀) = false := by
        simp [hg']
        exact h
      simp [addToAssoc, hg, lookupGroup, hne]
    · by_cases hg0 : g' == g₀
      · simp [addToAssoc, hg, lookupGroup, hg0]
      · simp [addToAssoc, hg, lookupGroup, hg0, ih]

/-- One row's dictionary effect on its own group's bucket. -/
lemma lookupGroup_appendGroup_self (acc : List (String × List Lesson))
    (g : String) (ls : List Lesson) :
    lookupGroup (appendGroup acc g ls) g = combineOpt (lookupGroup acc g) ls := by
  unfold appendGroup
  by_cases h : ls.isEmpty
  · have : ls = [] := by simpa [List.isEmpty_iff] using h
    simp [h, this, combineOpt_nil]
  · have hne : ls ≠ [] := by simpa [List.isEmpty_iff] using h
    simp [h, lookupGroup_addToAssoc_self acc g ls hne]

/-- One row's dictionary effect on other groups' buckets: none. -/
lemma lookupGroup_appendGroup_ne (acc : List (String × List Lesson))
    (g g₀ : String) (ls : List Lesson) (h : g ≠ g₀) :
    lookupGroup (appendGroup acc g ls) g₀ = lookupGroup acc g₀ := by
  unfold appendGroup
  by_cases he : ls.isEmpty
  · simp [he]
  · simp [he, lookupGroup_addToAssoc_ne acc g g₀ ls h]

/-- A group's contribution distributes over list append. -/
lemma groupContrib_append (parse : String → Option (List Lesson))
    (rows1 rows2 : List ScheduleCache) (target : DateD) (g : String) :
    groupContrib parse (rows1 ++ rows2) target g
      = groupContrib parse rows1 target g ++ groupContrib parse rows2 target g := by
  unfold groupContrib
  rw [List.filter_append, List.flatMap_append]

/-- The scan loop's dictionary, read at one group, is the accumulator's
bucket extended by that group's contribution from the scanned rows. -/
lemma lookup_aggAux (parse : String → Option (List Lesson)) (target : DateD) :
    ∀ (rows : List ScheduleCache) (acc : List (String × List Lesson)) (g : String),
      lookupGroup (aggAux parse target rows acc) g
        = combineOpt (lookupGroup acc g) (groupContrib parse rows target g) := by
  intro rows
  induction rows with
  | nil =>
    intro acc g
    simp [aggAux, groupContrib, combineOpt_nil]
  | cons row rest ih =>
    intro acc g
    show lookupGroup (aggAux parse target rest
        (appendGroup acc row.group_id (rowLessons parse row target))) g = _
    rw [ih]
    by_cases hg : row.group_id = g
    · rw [hg, lookupGroup_appendGroup_self, combineOpt_append]
      have : groupContrib parse (row :: rest) target g
          = rowLessons parse row target ++ groupContrib parse rest target g := by
        unfold groupContrib
        rw [List.filter_cons]
        simp [hg]
      rw [this]
    · rw [lookupGroup_appendGroup_ne acc row.group_id g _ hg]
      have : groupContrib parse (row :: rest) target g
          = groupContrib parse rest target g := by
        unfold groupContrib
        rw [List.filter_cons]
        simp [hg]
      rw [this]

/-- The dictionary read through the whole aggregation: a group's bucket
is exactly its contribution, absent when that contribution is empty. -/
lemma lookup_get_all (parse : String → Option (List Lesson))
    (rows : List ScheduleCache) (target : DateD) (g : String) :
    lookupGroup (get_all_group_schedules_today parse rows target) g
      = optOfList (groupContrib parse rows target g) := by
  unfold get_all_group_schedules_today
  rw [lookup_aggAux]
  simp [lookupGroup, combineOpt]

/-- Reading the keys off a dictionary cell. -/
lemma keysOf_cons (g' : String) (ls' : List Lesson)
    (rest : List (String × List Lesson)) :
    keysOf ((g', ls') :: rest) = g' :: keysOf rest := rfl

/-- Appending under an already-present key adds no key. -/
lemma keysOf_addToAssoc_mem (acc : List (String × List Lesson)) (g : String)
    (ls : List Lesson) (h : g ∈ keysOf acc) :
    keysOf (addToAssoc acc g ls) = keysOf acc := by
  induction acc with
  | nil => cases h
  | cons p rest ih =>
    rcases p with ⟨g', ls'⟩
    by_cases hg : g' == g
    · simp [addToAssoc, hg, keysOf]
    · have hg' : g' ≠ g := by simpa using hg
      have hmem : g ∈ keysOf rest := by
        rcases List.mem_cons.mp h with h1 | h1
        · exact absurd h1.symm hg'
        · exact h1
      have hstep : addToAssoc ((g', ls') :: rest) g ls
          = (g', ls') :: addToAssoc rest g ls := by
        simp [addToAssoc, hg]
      rw [hstep, keysOf_cons, keysOf_cons, ih hmem]

/-- Appending under a fresh key adds it at the end. -/
lemma keysOf_addToAssoc_not_mem (acc : List (String × List Lesson)) (g : String)
    (ls : List Lesson) (h : g ∉ keysOf acc) :
    keysOf (addToAssoc acc g ls) = keysOf acc ++ [g] := by
  induction acc with
  | nil => simp [addToAssoc, keysOf]
  | cons p rest ih =>
    rcases p with ⟨g', ls'⟩
    have hg' : g' ≠ g := by
      intro hc
      exact h (by simp [keysOf, hc])
    have hg : ¬(g' == g) = true := by simpa using hg'
    have hrest : g ∉ keysOf rest := by
      intro hc
      refine h ?_
      rw [keysOf_cons]
      exact List.mem_cons_of_mem g' hc
    have hstep : addToAssoc ((g', ls') :: rest) g ls
        = (g', ls') :: addToAssoc rest g ls := by
      simp [addToAssoc, hg]
    rw [hstep, keysOf_cons, keysOf_cons, ih hrest]
    rfl

/-- The scan loop keeps the dictionary's keys distinct. -/
lemma keysOf_appendGroup_nodup (acc : List (String × List Lesson)) (g : String)
    (ls : List Lesson) (h : (keysOf acc).Nodup) :
    (keysOf (appendGroup acc g ls)).Nodup := by
  cases ls with
  | nil => simpa [appendGroup]
  | cons x xs =>
    have hstep : appendGroup acc g (x :: xs) = addToAssoc acc g (x :: xs) := by
      simp [appendGroup]
    rw [hstep]
    by_cases hmem : g ∈ keysOf acc
    · rw [keysOf_addToAssoc_mem acc g (x :: xs) hmem]
      exact h
    · rw [keysOf_addToAssoc_not_mem acc g (x :: xs) hmem]
      simp [List.nodup_append, h]
      intro hc
      exact hmem hc

/-- Key distinctness is an invariant of the whole row scan. -/
lemma keysOf_aggAux_nodup (parse : String → Option (List Lesson))
    (target : DateD) :
    ∀ (rows : List ScheduleCache) (acc : List (String × List Lesson)),
      (keysOf acc).Nodup → (keysOf (aggAux parse target rows acc)).Nodup := by
  intro rows
  induction rows with
  | nil => intro acc h; simpa [aggAux]
  | cons row rest ih =>
    intro acc h
    exact ih _ (keysOf_appendGroup_nodup acc row.group_id _ h)

/-- A group's contribution from a single scanned row. -/
lemma groupContrib_cons (parse : String → Option (List Lesson))
    (r : ScheduleCache) (rows : List ScheduleCache) (target : DateD)
    (g : String) :
    groupContrib parse (r :: rows) target g
      = (if r.group_id == g then rowLessons parse r target else [])
        ++ groupContrib parse rows target g := by
  unfold groupContrib
  rw [List.filter_cons]
  by_cases h : r.group_id == g <;> simp [h]

/-- Inner-loop step for a lesson whose date parses. -/
lemma collectMatches_cons_some {target : DateD} {l : Lesson} {d : DateD}
    {rest : List Lesson} (hd : lessonDate l = some d) :
    collectMatches target (l :: rest)
      = (if addDay d = target then [l] else []) ++ collectMatches target rest := by
  simp only [collectMatches, hd]
  by_cases h : addDay d = target <;> simp [h]

/-- Inner-loop step for a lesson whose date fails to parse: the raised
exception ends the row, dropping everything after this lesson. -/
lemma collectMatches_cons_none {target : DateD} {l : Lesson}
    {rest : List Lesson} (hd : lessonDate l = none) :
    collectMatches target (l :: rest) = [] := by
  simp [collectMatches, hd]

/-- Over a well-formed block of lessons the inner loop is a filter by
the date test, and continues past the block. -/
lemma collectMatches_append_of_wf {target : DateD} {pre rest : List Lesson}
    (h : ∀ x ∈ pre, (lessonDate x).isSome = true) :
    collectMatches target (pre ++ rest)
      = pre.filter (matchesTarget target) ++ collectMatches target rest := by
  induction pre with
  | nil => simp
  | cons l pre' ih =>
    obtain ⟨d, hd⟩ := Option.isSome_iff_exists.mp (h l (List.mem_cons_self l pre'))
    have ih' := ih (fun x hx => h x (List.mem_cons_of_mem l hx))
    rw [List.cons_append, collectMatches_cons_some hd, List.filter_cons]
    have hm : matchesTarget target l = (if addDay d = target then true else false) := by
      simp [matchesTarget, hd]
    by_cases hmatch : addDay d = target
    · simp [hm, hmatch, ih']
    · simp [hm, hmatch, ih']

/-! ## Claim theorems about the daily lesson aggregator -/

/-- C8: the aggregation result is a mapping (its keys are distinct) and
reading it at any group yields exactly that group's included lessons in
row-then-lesson encounter order — the concatenation, over the table's
rows of that group in table order, of each row's contributed lessons in
payload order. -/
theorem aggregation_output_characterization
    (parse : String → Option (List Lesson)) (rows : List ScheduleCache)
    (target : DateD) (g : String) :
    lookupGroup (get_all_group_schedules_today parse rows target) g
      = optOfList ((rows.filter (fun r => r.group_id == g)).flatMap
          (fun r => rowLessons parse r target))
    ∧ (keysOf (get_all_group_schedules_today parse rows target)).Nodup := by
  constructor
  · exact lookup_get_all parse rows target g
  · exact keysOf_aggAux_nodup parse target rows [] (by simp [keysOf])

/-- C10: the aggregation result has a key for a group exactly when at
least one of that group's lessons matched, and it never maps a group to
an empty list. -/
theorem aggregation_keys_iff_nonempty
    (parse : String → Option (List Lesson)) (rows : List ScheduleCache)
    (target : DateD) (g : String) :
    (lookupGroup (get_all_group_schedules_today parse rows target) g = none
      ↔ groupContrib parse rows target g = [])
    ∧ lookupGroup (get_all_group_schedules_today parse rows target) g ≠ some [] := by
  rw [lookup_get_all]
  cases hc : groupContrib parse rows target g with
  | nil => simp [optOfList]
  | cons x xs => simp [optOfList]

/-- Witness for C8 at a concrete one-row table. -/
theorem aggregation_output_characterization_witness :
    lookupGroup (get_all_group_schedules_today demoParse [demoOkRow] demoTarget)
        "g2" = some [okLesson]
    ∧ (keysOf (get_all_group_schedules_today demoParse [demoOkRow] demoTarget)).Nodup :=
  ⟨((aggregation_output_characterization demoParse [demoOkRow] demoTarget
      "g2").1).trans (by decide),
    (aggregation_output_characterization demoParse [demoOkRow] demoTarget "g2").2⟩

/-- Witness for C10: a group with no matching lesson is absent from the
concrete aggregation result. -/
theorem aggregation_keys_iff_nonempty_witness :
    lookupGroup (get_all_group_schedules_today demoParse [demoOkRow] demoTarget)
        "gZ" = none :=
  (aggregation_keys_iff_nonempty demoParse [demoOkRow] demoTarget "gZ").1.mpr
    (by decide)

/-- C5 counterexample: a row holding a lesson whose `scheduleDate` key
is missing is not skipped as a whole — the matching lesson that precedes
the broken one has already been appended and stays in the output. -/
theorem failing_row_still_contributes :
    demoParse demoBadRow.data = some [goodLesson, badLesson, lateLesson]
    ∧ badLesson.scheduleDate = none
    ∧ lessonDate badLesson = none
    ∧ lookupGroup (get_all_group_schedules_today demoParse [demoBadRow] demoTarget)
        "g1" = some [goodLesson] := by
  decide

/-- C5 as amended: aggregation is total and per-row failures are
contained — every row's contribution is independent of the others, a row
whose payload fails to decode contributes nothing, and a row whose
payload decodes but holds a lesson with a missing or malformed
`scheduleDate` after a well-formed block contributes exactly the
matching lessons of that block (those appended before the failure),
dropping the rest of the row. -/
theorem aggregation_failure_containment
    (parse : String → Option (List Lesson)) (target : DateD)
    (pre post : List ScheduleCache) (r : ScheduleCache) (g : String) :
    lookupGroup (get_all_group_schedules_today parse (pre ++ r :: post) target) g
      = optOfList (groupContrib parse pre target g
          ++ (if r.group_id == g then rowLessons parse r target else [])
          ++ groupContrib parse post target g)
    ∧ (parse r.data = none → rowLessons parse r target = [])
    ∧ (∀ good rest : List Lesson, ∀ bad : Lesson,
        parse r.data = some (good ++ bad :: rest) →
        (∀ l ∈ good, (lessonDate l).isSome = true) →
        lessonDate bad = none →
        rowLessons parse r target = good.filter (matchesTarget target)) := by
  refine ⟨?_, ?_, ?_⟩
  · rw [lookup_get_all, groupContrib_append, groupContrib_cons, List.append_assoc]
  · intro h
    simp [rowLessons, h]
  · intro good rest bad hp hw hb
    simp only [rowLessons, hp]
    rw [collectMatches_append_of_wf hw, collectMatches_cons_none hb, List.append_nil]

/-- Witness for C5 as amended: in a concrete two-row table whose first
row fails mid-payload, the healthy second row is still aggregated, and
the failing row contributes exactly the match found before the broken
lesson. -/
theorem aggregation_failure_containment_witness :
    lookupGroup (get_all_group_schedules_today demoParse [demoBadRow, demoOkRow]
        demoTarget) "g2" = some [okLesson]
    ∧ rowLessons demoParse demoBadRow demoTarget = [goodLesson] :=
  ⟨((aggregation_failure_containment demoParse demoTarget [demoBadRow] []
        demoOkRow "g2").1).trans (by decide),
    ((aggregation_failure_containment demoParse demoTarget [] [] demoBadRow
        "g1").2.2 [goodLesson] [lateLesson] badLesson (by decide) (by decide)
        (by decide)).trans (by decide)⟩

/-- C6 counterexample: `lateLesson` is well-formed and its date plus one
day equals the target, yet it is absent from the aggregation output
because a broken lesson precedes it in the same row's payload. -/
theorem wellformed_lesson_excluded :
    lessonDate lateLesson = some ⟨2024, 3, 14⟩
    ∧ addDay ⟨2024, 3, 14⟩ = demoTarget
    ∧ demoParse demoBadRow.data = some [goodLesson, badLesson, lateLesson]
    ∧ lookupGroup (get_all_group_schedules_today demoParse [demoBadRow] demoTarget)
        "g1" = some [goodLesson]
    ∧ lateLesson ∉ [goodLesson] := by
  decide

/-- C6 as amended: for a well-formed lesson all of whose predecessors in
its row's payload are well-formed, the row contributes that lesson
exactly when the calendar date of the first 10 characters of its
`scheduleDate` plus one day equals the target date — the lesson
occupies its payload position in the contribution, between its
predecessors' matches and the rest of the row's matches. -/
theorem lesson_included_iff_amended
    (parse : String → Option (List Lesson)) (r : ScheduleCache)
    (target : DateD) (pre post : List Lesson) (l : Lesson) (d : DateD)
    (hparse : parse r.data = some (pre ++ l :: post))
    (hpre : ∀ x ∈ pre, (lessonDate x).isSome = true)
    (hl : lessonDate l = some d) :
    rowLessons parse r target
      = pre.filter (matchesTarget target)
        ++ (if addDay d = target then [l] else [])
        ++ collectMatches target post := by
  simp only [rowLessons, hparse]
  rw [collectMatches_append_of_wf hpre, collectMatches_cons_some hl,
    List.append_assoc]

/-- Witness for C6, the spec's own example: a lesson dated
2024-03-14T19:00:00 is included when the target date is 2024-03-15. -/
theorem lesson_included_iff_amended_witness :
    rowLessons demoParse exRow demoTarget = [goodLesson] :=
  (lesson_included_iff_amended demoParse exRow demoTarget [] [] goodLesson
      ⟨2024, 3, 14⟩ (by decide) (by decide) (by decide)).trans (by decide)

end UniBot
